import Mathlib

/-!
Verification of the session-scoped connector and storage lifecycle manager of
the ton-connect-mcp repository (src/storage.ts, src/wallet-manager.ts and the
HTTP entry point).  JavaScript `Map`s are embedded as association lists over
`String` keys, the shared Redis database as an association list from full key
to value and expiry, and promise rejection as `Except String`.  The
`.catch(console.error)` combinator of the source is embedded as a total
function that turns a rejection into a log event.  Object identity of
`TonConnect` client instances is embedded as an allocation counter: each
constructed client receives a fresh numeric id.
-/

/-- The separator character used by the Redis key namespace scheme. -/
def colon : Char := ':'

/- Association-list counterparts of the JavaScript `Map` operations used by
the source (`get`, `delete`, in-place value replacement, entry count). -/

def lookupKey {α : Type} (s : String) : List (String × α) → Option α
  | [] => none
  | (k, v) :: rest => if k = s then some v else lookupKey s rest

def eraseKey {α : Type} (s : String) (l : List (String × α)) : List (String × α) :=
  l.filter (fun e => e.1 != s)

def updateKey {α : Type} (s : String) (v : α) : List (String × α) → List (String × α)
  | [] => []
  | (k, w) :: rest => if k = s then (k, v) :: rest else (k, w) :: updateKey s v rest

def countKey {α : Type} (s : String) : List (String × α) → Nat
  | [] => 0
  | (k, _) :: rest => (if k = s then 1 else 0) + countKey s rest

/-- Boolean string-prefix test used to embed the Redis `KEYS pfx*` glob
(the glob pattern built by `RedisStorage.cleanup` is the literal prefix
followed by a single `*`). -/
def chPrefix : List Char → List Char → Bool
  | [], _ => true
  | _ :: _, [] => false
  | a :: as, b :: bs => a == b && chPrefix as bs

/-! ## Storage backends (src/storage.ts) -/

/-- In-memory storage: `class MemoryStorage`, a private `Map<string,string>`.
The newest binding shadows older ones, matching `Map.set` overwrite
semantics observationally. -/
structure MemoryStorage where
  storage : List (String × String)
deriving Repr, DecidableEq

def MemoryStorage.new : MemoryStorage := ⟨[]⟩

def MemoryStorage.setItem (m : MemoryStorage) (key value : String) : MemoryStorage :=
  ⟨(key, value) :: m.storage⟩

def MemoryStorage.getItem (m : MemoryStorage) (key : String) : Option String :=
  (m.storage.find? (fun e => e.1 == key)).map (fun e => e.2)

def MemoryStorage.removeItem (m : MemoryStorage) (key : String) : MemoryStorage :=
  ⟨m.storage.filter (fun e => e.1 != key)⟩

/-- `cleanup(): void` of `MemoryStorage`: `this.storage.clear()`. -/
def MemoryStorage.cleanup (_ : MemoryStorage) : MemoryStorage := ⟨[]⟩

/-- The shared Redis database: full key, value, expiry seconds as passed to
`SET key value EX ttl`.  Writes prepend; reads take the newest binding. -/
abbrev Redis := List (String × String × Nat)

/-- `class RedisStorage`: per-session prefix and ttl; the client handle is the
process-wide shared database, passed explicitly to each operation. -/
structure RedisStorage where
  pfx : String
  ttl : Nat
deriving Repr, DecidableEq

/-- `constructor(client, sessionId, ttl = 86400)`:
`this.prefix = ` the interpolation `tonconnect:<sessionId>:`. -/
def RedisStorage.make (sessionId : String) (ttl : Nat := 86400) : RedisStorage :=
  ⟨"tonconnect:" ++ sessionId ++ ":", ttl⟩

/-- `setItem`: `await this.client.set(this.prefix + key, value, { EX: this.ttl })`. -/
def RedisStorage.setItem (st : RedisStorage) (db : Redis) (key value : String) : Redis :=
  (st.pfx ++ key, value, st.ttl) :: db

/-- `getItem`: `await this.client.get(this.prefix + key)`. -/
def RedisStorage.getItem (st : RedisStorage) (db : Redis) (key : String) : Option String :=
  (db.find? (fun e => e.1 == st.pfx ++ key)).map (fun e => e.2.1)

/-- `removeItem`: `await this.client.del(this.prefix + key)`. -/
def RedisStorage.removeItem (st : RedisStorage) (db : Redis) (key : String) : Redis :=
  db.filter (fun e => e.1 != st.pfx ++ key)

/-- `cleanup()`: `keys = await client.keys(this.prefix + '*')`; if any match,
`await client.del(keys)`. -/
def RedisStorage.cleanup (st : RedisStorage) (db : Redis) : Redis :=
  let keys := (db.filter (fun e => chPrefix st.pfx.data e.1.data)).map (fun e => e.1)
  if keys.length > 0 then db.filter (fun e => !chPrefix st.pfx.data e.1.data) else db

/-- Expiry recorded for a full key, used to observe the `EX` argument. -/
def redisTTLOf (db : Redis) (key : String) : Option Nat :=
  (db.find? (fun e => e.1 == key)).map (fun e => e.2.2)

/-! ## Failure oracles and the event trace -/

/-- Environment oracle deciding which external awaits reject:
`disconnectFails` per client id, `purgeFails` per namespace prefix. -/
structure Env where
  disconnectFails : Nat → Bool
  purgeFails : String → Bool

/-- Observable events of a teardown run: a protocol-level disconnect attempt,
a storage-namespace purge attempt, and a `console.error` log entry. -/
inductive Ev where
  | disconnect (id : Nat)
  | purge (sessionId : String)
  | log (msg : String)
deriving Repr, DecidableEq

/-- Embeds `promise.catch(console.error)` for a `void` promise: a rejection
becomes a log event and never propagates. -/
def awaitCatch : Except String Unit → List Ev
  | .ok _ => []
  | .error e => [.log e]

/-- `RedisStorage.cleanup` under the failure oracle: the backend call either
rejects or performs the purge. -/
def RedisStorage.cleanupE (env : Env) (st : RedisStorage) (db : Redis) :
    Except String Redis :=
  if env.purgeFails st.pfx then .error "redis cleanup failed" else .ok (st.cleanup db)

/-! ## Wallet manager (src/wallet-manager.ts) -/

/-- Protocol client instance: `id` embeds JavaScript object identity
(allocation order), `connected` the SDK's `connected` flag. -/
structure TonConnect where
  id : Nat
  manifestUrl : String
  connected : Bool
deriving Repr, DecidableEq

/-- `connector.disconnect()` under the failure oracle. -/
def TonConnect.disconnect (c : TonConnect) (env : Env) : Except String Unit :=
  if env.disconnectFails c.id then .error "disconnect failed" else .ok ()

/-- Storage entry of the manager: `MemoryStorage` or `RedisStorage`,
discriminated by `instanceof` in the source. -/
inductive Storage where
  | memory (m : MemoryStorage)
  | redis (r : RedisStorage)
deriving Repr, DecidableEq

/-- `class WalletManager`: the two private maps, the optional Redis handle
(`useRedis` embeds `this.redisClient !== null`), and the allocation counter
for client object identity. -/
structure WalletManager where
  connectors : List (String × TonConnect)
  storages : List (String × Storage)
  useRedis : Bool
  nextId : Nat
deriving Repr, DecidableEq

/-- `getConnector(sessionId, manifestUrl)`: if absent, build the storage via
the factory choice (`RedisStorage` if a Redis client is configured, else
`MemoryStorage`), store it, construct the client bound to it, store it,
return the client; if present, return the cached client unchanged.  The
method body is synchronous (no `await`), so two overlapping calls execute
atomically one after the other. -/
def WalletManager.getConnector (wm : WalletManager) (sessionId manifestUrl : String) :
    TonConnect × WalletManager :=
  match lookupKey sessionId wm.connectors with
  | some c => (c, wm)
  | none =>
      let storage : Storage :=
        if wm.useRedis then .redis (RedisStorage.make sessionId) else .memory MemoryStorage.new
      let connector : TonConnect := ⟨wm.nextId, manifestUrl, false⟩
      (connector,
        { wm with
          storages := (sessionId, storage) :: wm.storages,
          connectors := (sessionId, connector) :: wm.connectors,
          nextId := wm.nextId + 1 })

/-- First half of `removeConnector`: `const connector =
this.connectors.get(sessionId); if (connector?.connected) await
connector.disconnect().catch(console.error)`. -/
def discPart (env : Env) (oc : Option TonConnect) : List Ev :=
  match oc with
  | some c =>
      if c.connected then Ev.disconnect c.id :: awaitCatch (c.disconnect env) else []
  | none => []

/-- Second half of `removeConnector`: look up the storage entry; the Redis
variant runs `cleanup()` with `.catch(console.error)`, the memory variant the
synchronous `clear` (unobservable once the entry is dropped). -/
def purgePart (env : Env) (os : Option Storage) (sid : String) (db : Redis) :
    Redis × List Ev :=
  match os with
  | some (.redis r) =>
      match r.cleanupE env db with
      | .ok d => (d, [Ev.purge sid])
      | .error e => (db, [Ev.purge sid, Ev.log e])
  | some (.memory _) => (db, [Ev.purge sid])
  | none => (db, [])

/-- `removeConnector(sessionId)`: disconnect if `connector?.connected`, the
rejection caught and logged; purge the storage entry, again caught; then
delete the session from both maps regardless. -/
def WalletManager.removeConnector (wm : WalletManager) (env : Env) (db : Redis)
    (sessionId : String) : Except String (WalletManager × Redis × List Ev) := do
  let evs1 : List Ev := discPart env (lookupKey sessionId wm.connectors)
  let p : Redis × List Ev := purgePart env (lookupKey sessionId wm.storages) sessionId db
  pure ({ wm with
          connectors := eraseKey sessionId wm.connectors,
          storages := eraseKey sessionId wm.storages },
        p.1, evs1 ++ p.2)

/-- First loop of `cleanup()`: push `connector.disconnect().catch(...)` for
every connected connector. -/
def disconnectAll (env : Env) : List (String × TonConnect) → List Ev
  | [] => []
  | (_, c) :: rest =>
      (if c.connected then Ev.disconnect c.id :: awaitCatch (c.disconnect env) else [])
        ++ disconnectAll env rest

/-- Second loop of `cleanup()`: push `storage.cleanup().catch(...)` for Redis
entries, run the synchronous clear for memory entries — per entry the same
discrimination as `removeConnector`. -/
def purgeAll (env : Env) : List (String × Storage) → Redis → Redis × List Ev
  | [], db => (db, [])
  | (sid, st) :: rest, db =>
      let first := purgePart env (some st) sid db
      let next := purgeAll env rest first.1
      (next.1, first.2 ++ next.2)

/-- `cleanup()`: collect every per-session teardown (each individually
caught), `await Promise.all`, then clear both maps. -/
def WalletManager.cleanup (wm : WalletManager) (env : Env) (db : Redis) :
    Except String (WalletManager × Redis × List Ev) := do
  let evs1 : List Ev := disconnectAll env wm.connectors
  let p : Redis × List Ev := purgeAll env wm.storages db
  pure ({ wm with connectors := [], storages := [] }, p.1, evs1 ++ p.2)

/-- Write through the storage backend held for session `s` (a tool handler
reaching the session's `IStorage`): the memory variant mutates its private
map in place, the Redis variant writes to the shared database. -/
def sessionSetItem (wm : WalletManager) (db : Redis) (s k v : String) :
    WalletManager × Redis :=
  match lookupKey s wm.storages with
  | some (.memory m) =>
      ({ wm with storages := updateKey s (.memory (m.setItem k v)) wm.storages }, db)
  | some (.redis r) => (wm, r.setItem db k v)
  | none => (wm, db)

/-- Read through the storage backend held for session `s`. -/
def sessionGetItem (wm : WalletManager) (db : Redis) (s k : String) : Option String :=
  match lookupKey s wm.storages with
  | some (.memory m) => m.getItem k
  | some (.redis r) => r.getItem db k
  | none => none

/-! ## HTTP entry point (session context resolution and a tool handler) -/

/-- `getCurrentSessionId()`: read the global `__mcpSessionId` slot; throw when
it does not hold a string. -/
def getCurrentSessionId (slot : Option String) : Except String String :=
  match slot with
  | some s => .ok s
  | none => .error "No active session found. This tool requires an active MCP session."

/-- Structured result of a tool call (`content` text plus `isError`). -/
structure ToolResult where
  text : String
  isError : Bool
deriving Repr, DecidableEq

/-- The `get_wallet_status` handler: resolve the session id (the surrounding
`try` turns the throw into an error result), obtain the session's connector,
then report connection state.  The success rendering is abbreviated to the
account address. -/
def getWalletStatusTool (slot : Option String) (wm : WalletManager) (url : String)
    (account : Option String) : ToolResult × WalletManager :=
  match getCurrentSessionId slot with
  | .error msg => ({ text := "Error: " ++ msg, isError := true }, wm)
  | .ok sessionId =>
      let (connector, wm1) := wm.getConnector sessionId url
      if !connector.connected then
        ({ text := "Wallet not connected. Use connect_wallet to establish a connection first.",
           isError := true }, wm1)
      else
        match account with
        | none =>
            ({ text := "Wallet connected but account information unavailable.",
               isError := true }, wm1)
        | some addr => ({ text := addr, isError := false }, wm1)

/-! ## Invariants -/

/-- The two private maps of the manager hold exactly the same session keys in
the same order. -/
def PairedKeys (wm : WalletManager) : Prop :=
  wm.connectors.map Prod.fst = wm.storages.map Prod.fst

/-- Registry keys are not duplicated (JavaScript `Map` keys are unique). -/
def NodupKeys (wm : WalletManager) : Prop :=
  (wm.connectors.map Prod.fst).Nodup

/-- Every cached client id was allocated below the counter. -/
def IdsFresh (wm : WalletManager) : Prop :=
  ∀ e ∈ wm.connectors, (e : String × TonConnect).2.id < wm.nextId

/-- Every Redis storage entry carries the canonical prefix derived from its
own session key, as `getConnector` constructs it. -/
def CanonicalStorages (wm : WalletManager) : Prop :=
  ∀ e ∈ wm.storages, ∀ r, (e : String × Storage).2 = .redis r → r = RedisStorage.make e.1

/-! ## Helper lemmas about the association-list map operations -/

theorem eraseKey_cons {α : Type} (s : String) (e : String × α) (l : List (String × α)) :
    eraseKey s (e :: l) = if e.1 = s then eraseKey s l else e :: eraseKey s l := by
  by_cases h : e.1 = s <;> simp [eraseKey, List.filter_cons, h]

theorem lookupKey_eraseKey_self {α : Type} (s : String) (l : List (String × α)) :
    lookupKey s (eraseKey s l) = none := by
  induction l with
  | nil => rfl
  | cons e rest ih =>
    rw [eraseKey_cons]
    by_cases h : e.1 = s
    · simpa [h] using ih
    · simpa [h, lookupKey] using ih

theorem lookupKey_eraseKey_ne {α : Type} (s t : String) (l : List (String × α))
    (hne : s ≠ t) : lookupKey s (eraseKey t l) = lookupKey s l := by
  have hts : ¬ t = s := fun h => hne h.symm
  induction l with
  | nil => rfl
  | cons e rest ih =>
    rw [eraseKey_cons]
    by_cases h : e.1 = t
    · have hes : ¬ e.1 = s := fun hs => hts (h ▸ hs)
      rw [if_pos h]
      have hstep : lookupKey s (e :: rest) = lookupKey s rest := by
        simp only [lookupKey]
        rw [if_neg hes]
      rw [hstep]
      exact ih
    · rw [if_neg h]
      simp only [lookupKey]
      by_cases hs : e.1 = s
      · rw [if_pos hs, if_pos hs]
      · rw [if_neg hs, if_neg hs]
        exact ih

theorem eraseKey_of_lookupKey_none {α : Type} (s : String) (l : List (String × α))
    (h : lookupKey s l = none) : eraseKey s l = l := by
  induction l with
  | nil => rfl
  | cons e rest ih =>
    by_cases he : e.1 = s
    · simp [lookupKey, he] at h
    · have hrest : lookupKey s rest = none := by
        simpa [lookupKey, he] using h
      rw [eraseKey_cons, if_neg he, ih hrest]

theorem lookupKey_mem {α : Type} {s : String} {v : α} {l : List (String × α)}
    (h : lookupKey s l = some v) : (s, v) ∈ l := by
  induction l with
  | nil => simp [lookupKey] at h
  | cons e rest ih =>
    by_cases he : e.1 = s
    · simp only [lookupKey] at h
      rw [if_pos he] at h
      have h2 : e.2 = v := by injection h
      have hev : (s, v) = e := by
        rw [← he, ← h2]
      rw [hev]
      exact List.mem_cons_self e rest
    · simp only [lookupKey] at h
      rw [if_neg he] at h
      exact List.mem_cons_of_mem _ (ih h)

theorem updateKey_cons {α : Type} (s : String) (v : α) (e : String × α)
    (l : List (String × α)) :
    updateKey s v (e :: l) = if e.1 = s then (e.1, v) :: l else e :: updateKey s v l := by
  obtain ⟨k, w⟩ := e
  by_cases h : k = s <;> simp [updateKey, h]

theorem lookupKey_updateKey_ne {α : Type} (s t : String) (v : α)
    (l : List (String × α)) (hne : s ≠ t) :
    lookupKey s (updateKey t v l) = lookupKey s l := by
  have hts : ¬ t = s := fun h => hne h.symm
  induction l with
  | nil => rfl
  | cons e rest ih =>
    rw [updateKey_cons]
    by_cases h : e.1 = t
    · rw [if_pos h]
      have hes : ¬ e.1 = s := fun hs => hts (h ▸ hs)
      simp only [lookupKey]
      rw [if_neg hes, if_neg hes]
    · rw [if_neg h]
      simp only [lookupKey]
      by_cases hs : e.1 = s
      · rw [if_pos hs, if_pos hs]
      · rw [if_neg hs, if_neg hs]
        exact ih

theorem countKey_eq_zero_of_lookupKey_none {α : Type} (s : String)
    (l : List (String × α)) (h : lookupKey s l = none) : countKey s l = 0 := by
  induction l with
  | nil => rfl
  | cons e rest ih =>
    by_cases he : e.1 = s
    · simp [lookupKey, he] at h
    · have hrest : lookupKey s rest = none := by
        simpa [lookupKey, he] using h
      simp [countKey, he, ih hrest]

theorem countKey_eraseKey_self {α : Type} (s : String) (l : List (String × α)) :
    countKey s (eraseKey s l) = 0 :=
  countKey_eq_zero_of_lookupKey_none s (eraseKey s l) (lookupKey_eraseKey_self s l)

theorem countKey_eq_zero_of_not_mem {α : Type} (s : String)
    (l : List (String × α)) (h : s ∉ l.map Prod.fst) : countKey s l = 0 := by
  induction l with
  | nil => rfl
  | cons e rest ih =>
    simp only [List.map_cons, List.mem_cons] at h
    push_neg at h
    have he : ¬ e.1 = s := fun hh => h.1 hh.symm
    simp [countKey, he, ih h.2]

theorem countKey_eq_one_of_nodup {α : Type} (s : String) (v : α)
    (l : List (String × α)) (hnd : (l.map Prod.fst).Nodup)
    (h : lookupKey s l = some v) : countKey s l = 1 := by
  induction l with
  | nil => simp [lookupKey] at h
  | cons e rest ih =>
    simp only [List.map_cons, List.nodup_cons] at hnd
    by_cases he : e.1 = s
    · have hnotm : s ∉ rest.map Prod.fst := he ▸ hnd.1
      simp [countKey, he, countKey_eq_zero_of_not_mem s rest hnotm]
    · have hrest : lookupKey s rest = some v := by
        simpa [lookupKey, he] using h
      simp [countKey, he, ih hnd.2 hrest]

theorem map_fst_eraseKey {α : Type} (s : String) (l : List (String × α)) :
    (eraseKey s l).map Prod.fst = (l.map Prod.fst).filter (fun k => k != s) := by
  induction l with
  | nil => rfl
  | cons e rest ih =>
    rw [eraseKey_cons]
    by_cases he : e.1 = s
    · simp [he, List.filter_cons, ih]
    · simp [he, List.filter_cons, ih]

/-! ## Helper lemmas about key prefixes -/

theorem chPrefix_append (l r : List Char) : chPrefix l (l ++ r) = true := by
  induction l with
  | nil => rfl
  | cons a as ih => simp [chPrefix, ih]

/-- Entries surviving a namespace purge never match the purged prefix (both
when the bulk delete ran and when the pattern scan matched nothing). -/
theorem cleanup_no_match (st : RedisStorage) (db : Redis) :
    ∀ e ∈ st.cleanup db, chPrefix st.pfx.data e.1.data = false := by
  intro e he
  unfold RedisStorage.cleanup at he
  by_cases hlen :
      ((db.filter (fun e => chPrefix st.pfx.data e.1.data)).map (fun e => e.1)).length > 0
  · simp only [hlen, if_pos] at he
    have := List.of_mem_filter he
    simpa using this
  · simp only [hlen, if_neg, not_false_iff] at he
    have hnil : (db.filter (fun e => chPrefix st.pfx.data e.1.data)) = [] := by
      have : ((db.filter (fun e => chPrefix st.pfx.data e.1.data)).map (fun e => e.1)).length = 0 := by
        omega
      simpa using this
    by_contra hmatch
    have hm : chPrefix st.pfx.data e.1.data = true := by
      cases hv : chPrefix st.pfx.data e.1.data
      · exact absurd hv hmatch
      · rfl
    have : e ∈ db.filter (fun e => chPrefix st.pfx.data e.1.data) :=
      List.mem_filter.mpr ⟨he, hm⟩
    rw [hnil] at this
    simp at this

/-- After a completed namespace purge, every read through that namespace
returns absent. -/
theorem getItem_cleanup (st : RedisStorage) (db : Redis) (k : String) :
    st.getItem (st.cleanup db) k = none := by
  unfold RedisStorage.getItem
  cases hf : (st.cleanup db).find? (fun e => e.1 == st.pfx ++ k) with
  | none => rfl
  | some e =>
    have hmem := List.mem_of_find?_eq_some hf
    have hkey : e.1 = st.pfx ++ k := by
      have := List.find?_some hf
      simpa using this
    have hno := cleanup_no_match st db e hmem
    rw [hkey, String.data_append] at hno
    rw [chPrefix_append] at hno
    simp at hno

/-- Splitting at an unambiguous separator: if neither side contains the
separator character, the decomposition is unique. -/
theorem sep_split_inj (c : Char) (l1 l2 r1 r2 : List Char)
    (h1 : c ∉ l1) (h2 : c ∉ l2) (h : l1 ++ c :: r1 = l2 ++ c :: r2) :
    l1 = l2 ∧ r1 = r2 := by
  induction l1 generalizing l2 with
  | nil =>
    cases l2 with
    | nil => simpa using h
    | cons b bs =>
      simp only [List.nil_append, List.cons_append, List.cons.injEq] at h
      have hcmem : c ∈ b :: bs := by
        rw [h.1]
        exact List.mem_cons_self b bs
      exact absurd hcmem h2
  | cons a as ih =>
    cases l2 with
    | nil =>
      simp only [List.cons_append, List.nil_append, List.cons.injEq] at h
      have hcmem : c ∈ a :: as := by
        rw [← h.1]
        exact List.mem_cons_self a as
      exact absurd hcmem h1
    | cons b bs =>
      simp only [List.cons_append, List.cons.injEq] at h
      have h1' : c ∉ as := fun hh => h1 (List.mem_cons_of_mem a hh)
      have h2' : c ∉ bs := fun hh => h2 (List.mem_cons_of_mem b hh)
      obtain ⟨hl, hr⟩ := ih bs h1' h2' h.2
      exact ⟨by rw [h.1, hl], hr⟩

/-- Distinct colon-free session identifiers produce disjoint full keys. -/
theorem make_key_ne (s1 s2 k1 k2 : String)
    (h1 : colon ∉ s1.data) (h2 : colon ∉ s2.data) (hne : s1 ≠ s2) :
    (RedisStorage.make s1).pfx ++ k1 ≠ (RedisStorage.make s2).pfx ++ k2 := by
  intro h
  have hdata := congrArg String.data h
  simp only [RedisStorage.make, String.data_append] at hdata
  have hdata2 :
      "tonconnect:".data ++ (s1.data ++ colon :: k1.data)
        = "tonconnect:".data ++ (s2.data ++ colon :: k2.data) := by
    have hc : (":" : String).data = [colon] := rfl
    simpa [hc, List.append_assoc] using hdata
  have hcancel := List.append_cancel_left hdata2
  obtain ⟨hs, _⟩ := sep_split_inj colon s1.data s2.data k1.data k2.data h1 h2 hcancel
  exact hne (String.ext hs)

/-! ## Helper lemmas about the teardown parts -/

theorem discPart_mem (env : Env) (c : TonConnect) (hc : c.connected = true) :
    Ev.disconnect c.id ∈ discPart env (some c) := by
  simp [discPart, hc]

theorem discPart_connected_of_mem (env : Env) (c : TonConnect) (i : Nat)
    (h : Ev.disconnect i ∈ discPart env (some c)) : c.connected = true := by
  cases hcc : c.connected with
  | true => rfl
  | false => simp [discPart, hcc] at h

theorem purgePart_mem (env : Env) (st : Storage) (sid : String) (db : Redis) :
    Ev.purge sid ∈ (purgePart env (some st) sid db).2 := by
  cases st with
  | memory m => simp [purgePart]
  | redis r => cases hce : r.cleanupE env db <;> simp [purgePart, hce]

theorem purgePart_no_disc (env : Env) (os : Option Storage) (sid : String)
    (db : Redis) (i : Nat) : Ev.disconnect i ∉ (purgePart env os sid db).2 := by
  cases os with
  | none => simp [purgePart]
  | some st =>
    cases st with
    | memory m => simp [purgePart]
    | redis r => cases hce : r.cleanupE env db <;> simp [purgePart, hce]

/-- `removeConnector` for an absent session id is a complete no-op returning
normally: no disconnect, no purge, no map change, no database change. -/
theorem removeConnector_noop (env : Env) (wm : WalletManager) (db : Redis)
    (s : String) (hcn : lookupKey s wm.connectors = none)
    (hsn : lookupKey s wm.storages = none) :
    wm.removeConnector env db s = .ok (wm, db, []) := by
  have hrun : wm.removeConnector env db s
      = .ok ({ wm with connectors := eraseKey s wm.connectors,
                       storages := eraseKey s wm.storages },
             (purgePart env (lookupKey s wm.storages) s db).1,
             discPart env (lookupKey s wm.connectors)
               ++ (purgePart env (lookupKey s wm.storages) s db).2) := rfl
  rw [hrun, hcn, hsn, eraseKey_of_lookupKey_none s wm.connectors hcn,
    eraseKey_of_lookupKey_none s wm.storages hsn]
  rfl

theorem disconnectAll_mem (env : Env) (e : String × TonConnect)
    (l : List (String × TonConnect)) (he : e ∈ l) (hc : e.2.connected = true) :
    Ev.disconnect e.2.id ∈ disconnectAll env l := by
  induction l with
  | nil => cases he
  | cons a rest ih =>
    rcases List.mem_cons.mp he with heq | hrest
    · subst heq
      simp [disconnectAll, hc]
    · obtain ⟨sid, c⟩ := a
      simp only [disconnectAll]
      exact List.mem_append.mpr (Or.inr (ih hrest))

theorem purgeAll_mem (env : Env) (e : String × Storage) (l : List (String × Storage))
    (he : e ∈ l) : ∀ db : Redis, Ev.purge e.1 ∈ (purgeAll env l db).2 := by
  induction l with
  | nil => cases he
  | cons a rest ih =>
    intro db
    obtain ⟨sid, st⟩ := a
    rcases List.mem_cons.mp he with heq | hrest
    · subst heq
      simp only [purgeAll]
      exact List.mem_append.mpr (Or.inl (purgePart_mem env st sid db))
    · simp only [purgeAll]
      exact List.mem_append.mpr (Or.inr (ih hrest _))

/-! ## Concrete objects used by witnesses and counterexamples -/

/-- Failure oracle where every external await succeeds. -/
def envNone : Env := ⟨fun _ => false, fun _ => false⟩

/-- Failure oracle where every external await rejects. -/
def envAll : Env := ⟨fun _ => true, fun _ => true⟩

/-- A manager configured with a Redis backend and no sessions yet. -/
def wmRedis0 : WalletManager := ⟨[], [], true, 0⟩

/-- A manager configured without Redis and no sessions yet. -/
def wmMem0 : WalletManager := ⟨[], [], false, 0⟩

/-! ## Claim theorems -/

/-- C8: storage round-trip and purge.  In both variants `setItem` followed by
`getItem` of the same key returns the stored value; after `cleanup` every key
of the namespace reads as absent; and the Redis purge with zero matching keys
completes as a success, not an error. -/
theorem storage_roundtrip_purge :
    (∀ (m : MemoryStorage) (k v : String), (m.setItem k v).getItem k = some v) ∧
    (∀ (m : MemoryStorage) (k : String), m.cleanup.getItem k = none) ∧
    (∀ (r : RedisStorage) (db : Redis) (k v : String),
        r.getItem (r.setItem db k v) k = some v) ∧
    (∀ (r : RedisStorage) (db : Redis) (k : String),
        r.getItem (r.cleanup db) k = none) ∧
    (∀ (env : Env) (r : RedisStorage) (db : Redis),
        env.purgeFails r.pfx = false →
        db.filter (fun e => chPrefix r.pfx.data e.1.data) = [] →
        r.cleanupE env db = .ok db) := by
  refine ⟨?_, ?_, ?_, ?_, ?_⟩
  · intro m k v
    simp [MemoryStorage.setItem, MemoryStorage.getItem]
  · intro m k
    rfl
  · intro r db k v
    simp [RedisStorage.setItem, RedisStorage.getItem]
  · intro r db k
    exact getItem_cleanup r db k
  · intro env r db hfail hmatch
    simp [RedisStorage.cleanupE, hfail, RedisStorage.cleanup, hmatch]

/-- C8 witness: the spec scenario for session `abc`, plus a zero-match purge
succeeding on an empty database. -/
theorem storage_roundtrip_purge_witness :
    (MemoryStorage.new.setItem "session-token" "token=xyz").getItem "session-token"
        = some "token=xyz" ∧
    (RedisStorage.make "abc").cleanupE envNone [] = .ok [] :=
  ⟨storage_roundtrip_purge.1 MemoryStorage.new "session-token" "token=xyz",
   storage_roundtrip_purge.2.2.2.2 envNone (RedisStorage.make "abc") [] rfl rfl⟩

/-- C9: the Redis variant constructed without an explicit ttl stores every
entry with an expiry of exactly 86400 seconds, while the in-memory variant
stores bare key/value pairs with no expiry attached. -/
theorem redis_default_ttl (s k v : String) (db : Redis) (m : MemoryStorage) :
    (RedisStorage.make s).ttl = 86400 ∧
    redisTTLOf ((RedisStorage.make s).setItem db k v) ((RedisStorage.make s).pfx ++ k)
      = some 86400 ∧
    (m.setItem k v).storage = (k, v) :: m.storage := by
  refine ⟨rfl, ?_, rfl⟩
  simp [RedisStorage.setItem, redisTTLOf, RedisStorage.make]

/-- C1 counterexample: namespace isolation fails for the distinct session
identifiers `a` and `a:b` — the key `b:x` written through session `a`'s
Redis storage is read back through session `a:b`'s storage as key `x`,
because both name the same full key `tonconnect:a:b:x`.  The setup is
reachable: both storages are exactly what `getConnector` constructs. -/
theorem namespace_isolation_cex :
    ("a" : String) ≠ "a:b" ∧
    sessionGetItem ((wmRedis0.getConnector "a" "u").2.getConnector "a:b" "u").2
      (sessionSetItem ((wmRedis0.getConnector "a" "u").2.getConnector "a:b" "u").2
        [] "a" "b:x" "v").2 "a:b" "x" = some "v" := by
  constructor
  · decide
  · rfl

/-- C1 (amended): namespace isolation holds for distinct session identifiers
that do not contain the separator `:` — a write through session `s1`'s
storage backend leaves every read through session `s2`'s backend unchanged,
for canonical registries (each Redis entry carries its own session's
prefix, as `getConnector` builds them). -/
theorem storage_namespace_isolation
    (wm : WalletManager) (db : Redis) (s1 s2 k1 k2 v : String)
    (hcan : CanonicalStorages wm)
    (h1 : colon ∉ s1.data) (h2 : colon ∉ s2.data) (hne : s1 ≠ s2) :
    sessionGetItem (sessionSetItem wm db s1 k1 v).1 (sessionSetItem wm db s1 k1 v).2 s2 k2
      = sessionGetItem wm db s2 k2 := by
  cases hl1 : lookupKey s1 wm.storages with
  | none => simp [sessionSetItem, hl1]
  | some st1 =>
    cases st1 with
    | memory m =>
      simp only [sessionSetItem, hl1]
      simp only [sessionGetItem]
      rw [lookupKey_updateKey_ne s2 s1 _ wm.storages (fun hss => hne hss.symm)]
    | redis r =>
      have hr : r = RedisStorage.make s1 :=
        hcan (s1, .redis r) (lookupKey_mem hl1) r rfl
      simp only [sessionSetItem, hl1]
      simp only [sessionGetItem]
      cases hl2 : lookupKey s2 wm.storages with
      | none => rfl
      | some st2 =>
        cases st2 with
        | memory m2 => rfl
        | redis r2 =>
          have hr2 : r2 = RedisStorage.make s2 :=
            hcan (s2, .redis r2) (lookupKey_mem hl2) r2 rfl
          subst hr hr2
          have hkey := make_key_ne s1 s2 k1 k2 h1 h2 hne
          simp [RedisStorage.setItem, RedisStorage.getItem, hkey]

/-- C1 witness: two concrete colon-free sessions on a canonical registry. -/
theorem storage_namespace_isolation_witness :
    sessionGetItem (sessionSetItem ((wmRedis0.getConnector "s1" "u").2.getConnector "s2" "u").2
        [] "s1" "k1" "v").1
      (sessionSetItem ((wmRedis0.getConnector "s1" "u").2.getConnector "s2" "u").2
        [] "s1" "k1" "v").2 "s2" "k1"
      = sessionGetItem ((wmRedis0.getConnector "s1" "u").2.getConnector "s2" "u").2 [] "s2" "k1" :=
  storage_namespace_isolation _ [] "s1" "s2" "k1" "k1" "v"
    (by
      intro e he r hr
      have hcases : e = ("s2", Storage.redis (RedisStorage.make "s2")) ∨
          e = ("s1", Storage.redis (RedisStorage.make "s1")) := by
        simpa [wmRedis0, WalletManager.getConnector, lookupKey] using he
      rcases hcases with h | h <;>
        · subst h
          injection hr with h2
          exact h2.symm)
    (by decide) (by decide) (by decide)

/-- C2: idempotent creation.  `getConnector` is synchronous (it contains no
await point), so two calls that overlap in time execute atomically in some
order; the second call returns the identical client instance, leaves the
registry entry unchanged, and the registry holds exactly one entry for the
session afterwards. -/
theorem getConnector_idempotent (wm : WalletManager) (s url : String)
    (hnd : NodupKeys wm) :
    ∀ c1 wm1, wm.getConnector s url = (c1, wm1) →
      wm1.getConnector s url = (c1, wm1) ∧ countKey s wm1.connectors = 1 := by
  intro c1 wm1 h
  cases hl : lookupKey s wm.connectors with
  | some c =>
    have h0 : wm.getConnector s url = (c, wm) := by
      simp [WalletManager.getConnector, hl]
    rw [h0] at h
    injection h with hc1 hwm1
    subst hc1
    subst hwm1
    exact ⟨h0, countKey_eq_one_of_nodup s c wm.connectors hnd hl⟩
  | none =>
    have h0 : wm.getConnector s url
        = (⟨wm.nextId, url, false⟩,
           { wm with
             storages := (s, if wm.useRedis then .redis (RedisStorage.make s)
                             else .memory MemoryStorage.new) :: wm.storages,
             connectors := (s, ⟨wm.nextId, url, false⟩) :: wm.connectors,
             nextId := wm.nextId + 1 }) := by
      simp [WalletManager.getConnector, hl]
    rw [h0] at h
    injection h with hc1 hwm1
    subst hc1
    subst hwm1
    constructor
    · simp [WalletManager.getConnector, lookupKey]
    · simp [countKey, countKey_eq_zero_of_lookupKey_none s wm.connectors hl]

/-- C2 witness: creating a session in the empty registry, then asking again,
returns the identical client and a single entry. -/
theorem getConnector_idempotent_witness :
    (wmMem0.getConnector "s1" "u").2.getConnector "s1" "u"
        = ((wmMem0.getConnector "s1" "u").1, (wmMem0.getConnector "s1" "u").2) ∧
    countKey "s1" (wmMem0.getConnector "s1" "u").2.connectors = 1 :=
  getConnector_idempotent wmMem0 "s1" "u" List.Pairwise.nil
    (wmMem0.getConnector "s1" "u").1 (wmMem0.getConnector "s1" "u").2 rfl

/-- C3: removal semantics.  For a registered session, `removeConnector`
returns normally under every failure oracle (disconnect and purge rejections
are caught and logged, never propagated), the trace records a disconnect
attempt exactly when the client reports itself connected, the storage purge
is attempted, and the session is deleted from both maps in every case. -/
theorem removeConnector_spec (env : Env) (wm : WalletManager) (db : Redis)
    (s : String) (c : TonConnect) (st : Storage)
    (hc : lookupKey s wm.connectors = some c)
    (hs : lookupKey s wm.storages = some st) :
    ∃ wm1 db1 tr, wm.removeConnector env db s = .ok (wm1, db1, tr) ∧
      ((Ev.disconnect c.id ∈ tr) ↔ c.connected = true) ∧
      Ev.purge s ∈ tr ∧
      lookupKey s wm1.connectors = none ∧
      lookupKey s wm1.storages = none := by
  refine ⟨_, _, _, rfl, ?_, ?_,
    lookupKey_eraseKey_self s wm.connectors, lookupKey_eraseKey_self s wm.storages⟩
  · rw [hc, hs]
    constructor
    · intro hmem
      rcases List.mem_append.mp hmem with hmem | hmem
      · exact discPart_connected_of_mem env c c.id hmem
      · exact absurd hmem (purgePart_no_disc env (some st) s db c.id)
    · intro hcc
      exact List.mem_append.mpr (Or.inl (discPart_mem env c hcc))
  · rw [hs]
    exact List.mem_append.mpr (Or.inr (purgePart_mem env st s db))

/-- C3 witness: a registered connected session torn down under the oracle
where both the disconnect and the purge reject. -/
theorem removeConnector_spec_witness :
    ∃ wm1 db1 tr,
      (⟨[("abc", ⟨0, "u", true⟩)], [("abc", .redis (RedisStorage.make "abc"))], true, 1⟩
          : WalletManager).removeConnector envAll [] "abc" = .ok (wm1, db1, tr) ∧
      ((Ev.disconnect 0 ∈ tr) ↔ (⟨0, "u", true⟩ : TonConnect).connected = true) ∧
      Ev.purge "abc" ∈ tr ∧
      lookupKey "abc" wm1.connectors = none ∧
      lookupKey "abc" wm1.storages = none :=
  removeConnector_spec envAll
    ⟨[("abc", ⟨0, "u", true⟩)], [("abc", .redis (RedisStorage.make "abc"))], true, 1⟩
    [] "abc" ⟨0, "u", true⟩ (.redis (RedisStorage.make "abc")) rfl rfl

/-- C4: removal is idempotent.  Removing an absent session returns normally
with no side effect at all, and a second removal right after a first one is
such a no-op, leaving the registry in the same end state both times. -/
theorem removeConnector_idem (env : Env) (wm : WalletManager) (db : Redis)
    (s : String) :
    (lookupKey s wm.connectors = none → lookupKey s wm.storages = none →
        wm.removeConnector env db s = .ok (wm, db, [])) ∧
    (∀ wm1 db1 tr, wm.removeConnector env db s = .ok (wm1, db1, tr) →
        wm1.removeConnector env db1 s = .ok (wm1, db1, [])) := by
  constructor
  · intro hcn hsn
    exact removeConnector_noop env wm db s hcn hsn
  · intro wm1 db1 tr h
    have hrun : wm.removeConnector env db s
        = .ok ({ wm with connectors := eraseKey s wm.connectors,
                         storages := eraseKey s wm.storages },
               (purgePart env (lookupKey s wm.storages) s db).1,
               discPart env (lookupKey s wm.connectors)
                 ++ (purgePart env (lookupKey s wm.storages) s db).2) := rfl
    rw [hrun] at h
    injection h with h
    injection h with h1 h
    injection h with h2 h3
    subst h1
    subst h2
    exact removeConnector_noop env _ _ s
      (lookupKey_eraseKey_self s wm.connectors)
      (lookupKey_eraseKey_self s wm.storages)

/-- C4 witness: removing the never-registered session id twice from the empty
registry, both runs succeeding with no side effects. -/
theorem removeConnector_idem_witness :
    wmMem0.removeConnector envNone [] "nonexistent-session" = .ok (wmMem0, [], []) ∧
    wmMem0.removeConnector envNone [] "nonexistent-session" = .ok (wmMem0, [], []) :=
  ⟨(removeConnector_idem envNone wmMem0 [] "nonexistent-session").1 rfl rfl,
   (removeConnector_idem envNone wmMem0 [] "nonexistent-session").2 wmMem0 [] []
     ((removeConnector_idem envNone wmMem0 [] "nonexistent-session").1 rfl rfl)⟩

/-- C5: shutdown teardown.  For every registry state and every failure
oracle, `cleanup` returns normally (never rejects), records a disconnect
attempt for every connected client and a purge attempt for every storage
entry, and leaves both maps of the registry empty. -/
theorem cleanup_spec (env : Env) (wm : WalletManager) (db : Redis) :
    ∃ db1 tr, wm.cleanup env db
        = .ok ({ wm with connectors := [], storages := [] }, db1, tr) ∧
      (∀ e ∈ wm.connectors, (e : String × TonConnect).2.connected = true →
          Ev.disconnect e.2.id ∈ tr) ∧
      (∀ e ∈ wm.storages, Ev.purge (e : String × Storage).1 ∈ tr) := by
  refine ⟨_, _, rfl, ?_, ?_⟩
  · intro e he hconn
    exact List.mem_append.mpr (Or.inl (disconnectAll_mem env e wm.connectors he hconn))
  · intro e he
    exact List.mem_append.mpr (Or.inr (purgeAll_mem env e wm.storages he db))

/-- C5 witness: a two-session registry (one connected client, one Redis and
one memory storage) torn down under the all-failing oracle. -/
theorem cleanup_spec_witness :
    ∃ db1 tr,
      (⟨[("a", ⟨0, "u", true⟩), ("b", ⟨1, "u", false⟩)],
        [("a", .redis (RedisStorage.make "a")), ("b", .memory MemoryStorage.new)],
        true, 2⟩ : WalletManager).cleanup envAll [] = .ok
          ({ (⟨[("a", ⟨0, "u", true⟩), ("b", ⟨1, "u", false⟩)],
              [("a", .redis (RedisStorage.make "a")), ("b", .memory MemoryStorage.new)],
              true, 2⟩ : WalletManager) with connectors := [], storages := [] }, db1, tr) ∧
      (∀ e ∈ [("a", (⟨0, "u", true⟩ : TonConnect)), ("b", ⟨1, "u", false⟩)],
          (e : String × TonConnect).2.connected = true → Ev.disconnect e.2.id ∈ tr) ∧
      (∀ e ∈ [("a", Storage.redis (RedisStorage.make "a")), ("b", .memory MemoryStorage.new)],
          Ev.purge (e : String × Storage).1 ∈ tr) :=
  cleanup_spec envAll
    ⟨[("a", ⟨0, "u", true⟩), ("b", ⟨1, "u", false⟩)],
     [("a", .redis (RedisStorage.make "a")), ("b", .memory MemoryStorage.new)], true, 2⟩ []

/-- C6 counterexample to the claim as stated: when the namespace purge
rejects during `removeConnector` (the rejection is caught and logged by the
source), the prior incarnation's key survives, and after `removeConnector`
completes, the re-created session of the same id reads the residue value
through its fresh storage backend. -/
theorem fresh_incarnation_cex :
    ∃ wm1 db1 tr,
      (⟨[("s", ⟨0, "u", false⟩)], [("s", .redis (RedisStorage.make "s"))], true, 1⟩
          : WalletManager).removeConnector envAll
        ((RedisStorage.make "s").setItem [] "k" "v") "s" = .ok (wm1, db1, tr) ∧
      sessionGetItem (wm1.getConnector "s" "u").2 db1 "s" "k" = some "v" := by
  refine ⟨_, _, _, rfl, ?_⟩
  rfl

/-- C6 (amended): after `removeConnector(s)` completes, a subsequent
`getConnector(s, url)` constructs a genuinely new client (a fresh object
identity, distinct from the prior incarnation's); the new incarnation's
storage namespace reads absent for every key — unconditionally for the
in-memory variant (a brand-new private map), and for the Redis variant
provided the namespace purge succeeded (the backend deletion did not
reject), the storage being a fresh canonical-prefix instance. -/
theorem fresh_incarnation (env : Env) (wm : WalletManager) (db : Redis)
    (s url : String) (c0 : TonConnect)
    (hfresh : IdsFresh wm)
    (hc : lookupKey s wm.connectors = some c0) :
    ∀ wm1 db1 tr, wm.removeConnector env db s = .ok (wm1, db1, tr) →
      ((wm1.getConnector s url).1.id ≠ c0.id ∧
       (wm.useRedis = false →
          ∀ k, sessionGetItem (wm1.getConnector s url).2 db1 s k = none) ∧
       (wm.useRedis = true →
          lookupKey s wm.storages = some (.redis (RedisStorage.make s)) →
          env.purgeFails (RedisStorage.make s).pfx = false →
          (lookupKey s (wm1.getConnector s url).2.storages
              = some (.redis (RedisStorage.make s)) ∧
           ∀ k, sessionGetItem (wm1.getConnector s url).2 db1 s k = none))) := by
  intro wm1 db1 tr h
  have hrun : wm.removeConnector env db s
      = .ok ({ wm with connectors := eraseKey s wm.connectors,
                       storages := eraseKey s wm.storages },
             (purgePart env (lookupKey s wm.storages) s db).1,
             discPart env (lookupKey s wm.connectors)
               ++ (purgePart env (lookupKey s wm.storages) s db).2) := rfl
  rw [hrun] at h
  injection h with h
  injection h with h1 h
  injection h with h2 h3
  have hn : lookupKey s wm1.connectors = none := by
    rw [← h1]
    exact lookupKey_eraseKey_self s wm.connectors
  have hred1 : wm1.useRedis = wm.useRedis := by
    rw [← h1]
  have hget : wm1.getConnector s url
      = (⟨wm1.nextId, url, false⟩,
         { wm1 with
           storages := (s, if wm.useRedis then .redis (RedisStorage.make s)
                           else .memory MemoryStorage.new) :: wm1.storages,
           connectors := (s, ⟨wm1.nextId, url, false⟩) :: wm1.connectors,
           nextId := wm1.nextId + 1 }) := by
    simp [WalletManager.getConnector, hn, hred1]
  refine ⟨?_, ?_, ?_⟩
  · rw [hget]
    have hlt : c0.id < wm.nextId := hfresh (s, c0) (lookupKey_mem hc)
    have hnext : wm1.nextId = wm.nextId := by
      rw [← h1]
    simp only [hnext]
    omega
  · intro hredF k
    rw [hget]
    simp [sessionGetItem, lookupKey, hredF, MemoryStorage.getItem, MemoryStorage.new]
  · intro hredT hs hok
    have hdb1 : db1 = (RedisStorage.make s).cleanup db := by
      rw [← h2, hs]
      simp [purgePart, RedisStorage.cleanupE, hok]
    constructor
    · rw [hget]
      simp [lookupKey, hredT]
    · intro k
      rw [hget]
      simp [sessionGetItem, lookupKey, hredT]
      rw [hdb1]
      exact getItem_cleanup (RedisStorage.make s) db k

/-- C6 witness: a Redis-backed one-session registry with residue in its
namespace, torn down under the never-failing oracle (the run computes to the
emptied database) and re-created with a fresh client id; and a memory-backed
registry whose prior incarnation held a value, re-created with an empty
private map. -/
theorem fresh_incarnation_witness :
    (((⟨[], [], true, 1⟩ : WalletManager).getConnector "s" "u").1.id
        ≠ (⟨0, "u", false⟩ : TonConnect).id ∧
     lookupKey "s" ((⟨[], [], true, 1⟩ : WalletManager).getConnector "s" "u").2.storages
        = some (.redis (RedisStorage.make "s")) ∧
     sessionGetItem ((⟨[], [], true, 1⟩ : WalletManager).getConnector "s" "u").2 [] "s" "k"
        = none) ∧
    sessionGetItem ((⟨[], [], false, 1⟩ : WalletManager).getConnector "s" "u").2 [] "s" "k"
        = none :=
  have hr := fresh_incarnation envNone
    ⟨[("s", ⟨0, "u", false⟩)], [("s", .redis (RedisStorage.make "s"))], true, 1⟩
    ((RedisStorage.make "s").setItem [] "k" "v") "s" "u" ⟨0, "u", false⟩
    (by
      intro e he
      have he2 : e = ("s", (⟨0, "u", false⟩ : TonConnect)) := by simpa using he
      rw [he2]
      decide)
    rfl
    ⟨[], [], true, 1⟩ [] [Ev.purge "s"] rfl
  have hm := fresh_incarnation envNone
    ⟨[("s", ⟨0, "u", false⟩)], [("s", .memory (MemoryStorage.new.setItem "k" "v"))], false, 1⟩
    [] "s" "u" ⟨0, "u", false⟩
    (by
      intro e he
      have he2 : e = ("s", (⟨0, "u", false⟩ : TonConnect)) := by simpa using he
      rw [he2]
      decide)
    rfl
    ⟨[], [], false, 1⟩ [] [Ev.purge "s"] rfl
  ⟨⟨hr.1, (hr.2.2 rfl rfl rfl).1, (hr.2.2 rfl rfl rfl).2 "k"⟩, hm.2.1 rfl "k"⟩

/-- C7: missing session context.  When the global session slot holds no
string, the `get_wallet_status` handler returns a structured error result
with the descriptive message to that one caller, reads and writes no
session state (the registry is returned unchanged), and returns normally
rather than crashing. -/
theorem missing_session_context (wm : WalletManager) (url : String)
    (account : Option String) :
    (getWalletStatusTool none wm url account).1.isError = true ∧
    (getWalletStatusTool none wm url account).1.text
      = "Error: No active session found. This tool requires an active MCP session." ∧
    (getWalletStatusTool none wm url account).2 = wm :=
  ⟨rfl, rfl, rfl⟩

/-- C10: paired-maps invariant.  Each manager operation preserves the
invariant that the connectors map and the storages map hold exactly the same
session keys: `getConnector` inserts into both together, `removeConnector`
deletes from both, `cleanup` clears both. -/
theorem paired_maps (wm : WalletManager) (h : PairedKeys wm) :
    (∀ s url, PairedKeys (wm.getConnector s url).2) ∧
    (∀ env db s wm1 db1 tr, wm.removeConnector env db s = .ok (wm1, db1, tr) →
        PairedKeys wm1) ∧
    (∀ env db wm1 db1 tr, wm.cleanup env db = .ok (wm1, db1, tr) → PairedKeys wm1) := by
  refine ⟨?_, ?_, ?_⟩
  · intro s url
    cases hl : lookupKey s wm.connectors with
    | some c => simpa [WalletManager.getConnector, hl] using h
    | none =>
      simp only [WalletManager.getConnector, hl]
      unfold PairedKeys at h ⊢
      simp [h]
  · intro env db s wm1 db1 tr hrm
    have hrun : wm.removeConnector env db s
        = .ok ({ wm with connectors := eraseKey s wm.connectors,
                         storages := eraseKey s wm.storages },
               (purgePart env (lookupKey s wm.storages) s db).1,
               discPart env (lookupKey s wm.connectors)
                 ++ (purgePart env (lookupKey s wm.storages) s db).2) := rfl
    rw [hrun] at hrm
    injection hrm with hrm
    injection hrm with h1 hrm
    have hwm1 : wm1 = { wm with connectors := eraseKey s wm.connectors,
                                storages := eraseKey s wm.storages } := h1.symm
    rw [hwm1]
    unfold PairedKeys at h ⊢
    simp only [map_fst_eraseKey]
    rw [h]
  · intro env db wm1 db1 tr hcl
    have hrun : wm.cleanup env db
        = .ok ({ wm with connectors := [], storages := [] },
               (purgeAll env wm.storages db).1,
               disconnectAll env wm.connectors ++ (purgeAll env wm.storages db).2) := rfl
    rw [hrun] at hcl
    injection hcl with hcl
    injection hcl with h1 hcl
    rw [← h1]
    unfold PairedKeys
    rfl

/-- C10 witness: the invariant holds for the empty registry and is carried
through a concrete creation. -/
theorem paired_maps_witness :
    PairedKeys (wmRedis0.getConnector "s1" "u").2 :=
  (paired_maps wmRedis0 rfl).1 "s1" "u"
